import Mathlib

/-!
Verification of the nalanda-validator browser-automation core.

The repository drives a third-party timesheet site through a browser.  The
pure decision logic of the automation (retry loops, summary accounting,
discovery parsing, validation dispatch) is embedded shallowly below; all
interactions with the browser page are abstracted as environment inputs
(an environment says which URL a navigation landed on, whether a selector
appeared, what a DOM query returned, whether an attempt threw), while the
control flow, log emission and summary construction are translated
faithfully from the TypeScript sources:

  * src/server/automation/nalanda.ts      (the server automation)
  * src/client/src/pages/Credentials.tsx  (the WORKER_CODE variant)
-/

namespace Nalanda

/-- Log levels, from `LogLevel` in nalanda.ts. -/
inductive LogLevel where
  | info
  | success
  | warning
  | error
deriving DecidableEq, Repr

/-- A log entry (timestamp omitted: it never influences control flow). -/
structure LogEntry where
  level : LogLevel
  message : String
deriving DecidableEq, Repr

def mkLog (lv : LogLevel) (msg : String) : LogEntry := ⟨lv, msg⟩

/-- Structure `DaySummary` from nalanda.ts. -/
structure DaySummary where
  date : String
  workersValidated : Nat
  obras : List String
deriving DecidableEq, Repr

/-- One `monthsReviewed` entry of `RunSummary`. -/
structure MonthReviewed where
  month : String
  pendingFound : Bool
deriving DecidableEq, Repr

/-- Structure `RunSummary` from nalanda.ts. -/
structure RunSummary where
  totalValidated : Nat
  daysByDate : List DaySummary
  monthsReviewed : List MonthReviewed
  errors : List String
deriving DecidableEq, Repr

/-- Number of log entries of a given level. -/
def countLevel (lv : LogLevel) (logs : List LogEntry) : Nat :=
  (logs.filter (fun l => l.level = lv)).length

theorem countLevel_append (lv : LogLevel) (a b : List LogEntry) :
    countLevel lv (a ++ b) = countLevel lv a + countLevel lv b := by
  simp [countLevel, List.filter_append]

/-! ## The Day Processor retry skeleton (`processDay`, nalanda.ts lines 180-290)

One *attempt* is the body of the `try` block: it navigates to the pending
page for the date, enumerates job sites and validates them.  Everything it
does goes through the browser, so an attempt is abstracted as an
environment value: either it returns a `DaySummary` or it throws with an
error message; in both cases it may have emitted further log entries
(beyond the leading "Procesando día ..." line, which the skeleton itself
emits).  The WORKER_CODE `processDay` in Credentials.tsx has the identical
retry skeleton (same warning-per-failed-attempt / error-after-last shape),
so this embedding covers both cited variants. -/

inductive AttemptOutcome where
  | ok (res : DaySummary) (logs : List LogEntry)
  | fail (errMsg : String) (logs : List LogEntry)

/-- The `for (let attempt = 1; attempt <= retries; attempt++)` loop of
`processDay`, by recursion on the number of remaining attempts.  Returns
the summary, the emitted logs, and the number of attempts actually made.
The `0` case is the fall-through `return` after the loop (line 289),
reachable only when `retries = 0`. -/
def processDayLoop (date : String) (retries : Nat) (env : Nat → AttemptOutcome) :
    Nat → Nat → DaySummary × List LogEntry × Nat
  | _attempt, 0 => (⟨date, 0, []⟩, [], 0)
  | attempt, remaining + 1 =>
    let pre := [mkLog .info ("Procesando día " ++ date ++ "...")]
    match env attempt with
    | .ok res logs => (res, pre ++ logs, 1)
    | .fail err logs =>
      if remaining > 0 then
        -- attempt < retries: warn and retry
        let warn := mkLog .warning ("Intento " ++ toString attempt ++ "/" ++ toString retries ++
          " fallido para " ++ date ++ ": " ++ err ++ ". Reintentando...")
        let r := processDayLoop date retries env (attempt + 1) remaining
        (r.1, pre ++ logs ++ [warn] ++ r.2.1, r.2.2 + 1)
      else
        -- last attempt: log the error and return the zero-result summary
        let errLog := mkLog .error ("Error procesando " ++ date ++ " tras " ++
          toString retries ++ " intentos: " ++ err)
        (⟨date, 0, []⟩, pre ++ logs ++ [errLog], 1)

/-- Function `processDay(page, date, callbacks, retries)`: run up to `retries`
attempts; never throws. -/
def processDay (date : String) (env : Nat → AttemptOutcome) (retries : Nat) :
    DaySummary × List LogEntry × Nat :=
  processDayLoop date retries env 1 retries

/-! ## The Authenticator (`login`, nalanda.ts lines 112-150) -/

/-- Substring check mirroring JavaScript `String.prototype.includes`. -/
def startsWithSeq : List Char → List Char → Bool
  | _, [] => true
  | [], _ :: _ => false
  | a :: as, b :: bs => a == b && startsWithSeq as bs

def containsSeq : List Char → List Char → Bool
  | [], need => need.isEmpty
  | a :: t, need => startsWithSeq (a :: t) need || containsSeq t need

def jsIncludes (s sub : String) : Bool := containsSeq s.toList sub.toList

/-- Abstract page commands issued by `login`. -/
inductive PageAction where
  | goto (url : String)
  | waitForSelector (sel : String)
  | fill (sel value : String)
  | click (sel : String)
  | waitForURL
deriving DecidableEq, Repr

def nalandaUrl : String := "https://app.nalandaglobal.com"

/-- Environment for one `login` call: what the browser did in response. -/
structure LoginEnv where
  landedUrl : String          -- page.url() after the initial goto
  formAppears : Bool          -- whether #username appeared within the wait
  redirectHappens : Bool      -- whether waitForURL left the identity host
  errorBannerText : Option String  -- text of .alert-error if present

/-- Function `login(page, username, password)`: returns the outcome, the page
actions issued, and the logs emitted. -/
def login (username _password : String) (env : LoginEnv) :
    Except String Unit × List PageAction × List LogEntry :=
  let acts0 := [PageAction.goto nalandaUrl]
  let logs0 := [mkLog .info "Navegando a Nalanda Global..."]
  if jsIncludes env.landedUrl "app.nalandaglobal.com" &&
     !(jsIncludes env.landedUrl "identity.nalandaglobal.com") then
    (.ok (), acts0, logs0 ++ [mkLog .success "Sesión ya activa, continuando..."])
  else
    let acts1 := acts0 ++ [PageAction.waitForSelector "#username"]
    if !env.formAppears then
      (.error "No se encontró el formulario de login de Nalanda", acts1, logs0)
    else
      let logs1 := logs0 ++ [mkLog .info ("Iniciando sesión como " ++ username ++ "...")]
      let acts2 := acts1 ++ [PageAction.fill "#username" "", PageAction.fill "#username" username,
        PageAction.fill "#password" "", PageAction.fill "#password" _password,
        PageAction.click "#kc-login", PageAction.waitForURL]
      if env.redirectHappens then
        (.ok (), acts2, logs1 ++ [mkLog .success "Login completado correctamente"])
      else
        match env.errorBannerText with
        | some t => (.error ("Error de login: " ++ t), acts2, logs1)
        | none => (.error "Timeout esperando redirección tras login", acts2, logs1)

/-! ## The Run Orchestrator (`runNalandaAutomation`, nalanda.ts lines 292-423)

The calendar scans (`getRedDaysFromCalendar`) read the DOM, so each scan is
abstracted as an environment value `Except String (List String)`: either a
list of DD/MM/YYYY pending dates, or a thrown error message.  The per-date
day processing is abstracted as `procDay : String → DaySummary × List
LogEntry` (the real `processDay` never throws, see `processDay` above). -/

def joinComma (xs : List String) : String := String.intercalate ", " xs

/-- The `redDays` value after `try { ... getRedDaysFromCalendar ... } catch`:
an exception leaves the list empty. -/
def datesOf : Except String (List String) → List String
  | .ok ds => ds
  | .error _ => []

/-- The warning a failed calendar scan emits in its `catch` clause. -/
def scanWarnLogs (warnPre : String) : Except String (List String) → List LogEntry
  | .ok _ => []
  | .error e => [mkLog .warning (warnPre ++ e)]

/-- The per-date accumulation loop (`for (const date of redDays)`,
nalanda.ts lines 345-349 and 377-381). -/
def processDates (procDay : String → DaySummary × List LogEntry)
    (dates : List String) (st : RunSummary × List LogEntry) : RunSummary × List LogEntry :=
  dates.foldl (fun st date =>
    let r := procDay date
    ({ st.1 with
        daysByDate := st.1.daysByDate ++ [r.1],
        totalValidated := st.1.totalValidated + r.1.workersValidated },
     st.2 ++ r.2)) st

/-- One month-scope review: intro log, guarded calendar scan (warning on
throw), then either process each red day and record `pendingFound = true`,
or log the empty-month message and record `pendingFound = false`.
This is the shared shape of nalanda.ts lines 331-354 (current month) and
363-386 (each prior month); the message strings are passed in. -/
def reviewMonth (procDay : String → DaySummary × List LogEntry)
    (label : String) (scan : Except String (List String))
    (introMsg warnPre foundPre emptyMsg : String)
    (st : RunSummary × List LogEntry) : RunSummary × List LogEntry :=
  let scanLogs := scanWarnLogs warnPre scan
  let redDays := datesOf scan
  let st1 := (st.1, st.2 ++ [mkLog .info introMsg] ++ scanLogs)
  if redDays.length > 0 then
    let st2 := (st1.1, st1.2 ++ [mkLog .info (foundPre ++ toString redDays.length ++
      " día(s) pendiente(s): " ++ joinComma redDays)])
    let st3 := processDates procDay redDays st2
    ({ st3.1 with monthsReviewed := st3.1.monthsReviewed ++ [⟨label, true⟩] }, st3.2)
  else
    ({ st1.1 with monthsReviewed := st1.1.monthsReviewed ++ [⟨label, false⟩] },
     st1.2 ++ [mkLog .success emptyMsg])

/-- The prior-month loop body (nalanda.ts lines 361-389). -/
def reviewStep (procDay : String → DaySummary × List LogEntry)
    (st : RunSummary × List LogEntry)
    (p : String × Except String (List String)) : RunSummary × List LogEntry :=
  reviewMonth procDay p.1 p.2
    ("Revisando " ++ p.1 ++ "...")
    ("No se pudo leer el calendario de " ++ p.1 ++ ": ")
    (p.1 ++ ": ")
    (p.1 ++ ": sin partes pendientes") st

/-- Orchestrator `runNalandaAutomation` from the login onwards: current-month review,
prior-month loop, final verification (whose scan failure is silently
ignored, lines 396-399), closing log.  `priors` pairs each prior month
label with its scan outcome. -/
def runNalandaAutomation (procDay : String → DaySummary × List LogEntry)
    (currentLabel : String)
    (priors : List (String × Except String (List String)))
    (currentScan finalScan : Except String (List String)) : RunSummary × List LogEntry :=
  let st0 : RunSummary × List LogEntry := (⟨0, [], [], []⟩, [])
  let st1 := reviewMonth procDay currentLabel currentScan
    ("Revisando mes actual (" ++ currentLabel ++ ")...")
    "No se pudo leer el calendario del mes actual: "
    "Mes actual: "
    ("Mes actual (" ++ currentLabel ++ "): sin partes pendientes") st0
  let st2 := priors.foldl (reviewStep procDay) st1
  let st3 := (st2.1, st2.2 ++ [mkLog .info "Realizando verificación final..."])
  let finalRedDays := datesOf finalScan   -- the catch clause ignores the error: no warning
  let st4 :=
    if finalRedDays.length = 0 then
      (st3.1, st3.2 ++ [mkLog .success "✓ Verificación final: no quedan partes pendientes"])
    else
      (st3.1, st3.2 ++ [mkLog .warning ("Verificación final: aún hay " ++
        toString finalRedDays.length ++ " día(s) en rojo. Puede requerir revisión manual.")])
  (st4.1, st4.2 ++ [mkLog .success ("Proceso completado. Total: " ++
    toString st4.1.totalValidated ++ " jornadas validadas en " ++
    toString (st4.1.daysByDate.filter (fun d => 0 < d.workersValidated)).length ++ " día(s)")])

/-- Window helper `getMonthsToReview` (nalanda.ts lines 41-54): months are encoded as
`t = year * 12 + month0` (0-based month, mirroring the JS `Date`
normalization of `new Date(y, m - i, 1)`; faithful whenever
`monthsBack ≤ year * 12 + month0`, which holds for all real dates). -/
def pad2 (n : Nat) : String := if n < 10 then "0" ++ toString n else toString n

def monthLabelOfT (t : Nat) : String := pad2 (t % 12 + 1) ++ "/" ++ toString (t / 12)

def currentLabelOf (year month0 : Nat) : String := pad2 (month0 + 1) ++ "/" ++ toString year

def getMonthsToReviewT (year month0 monthsBack : Nat) : List Nat :=
  (List.range monthsBack).map (fun i => year * 12 + month0 - (i + 1))

/-- Each reviewed prior month as `(label, sampleDate)`. -/
def getMonthsToReview (year month0 monthsBack : Nat) : List (String × String) :=
  (getMonthsToReviewT year month0 monthsBack).map (fun t =>
    (monthLabelOfT t, "15/" ++ monthLabelOfT t))

/-! ## The Entry Validator, server variant (nalanda.ts lines 230-250)

Within one job site, after the checkbox selection the code looks up the
"Validate selected days" control; if it is absent it *throws*, landing in
the catch of `processDay` and consuming a retry.  The DOM state (the count the
`:checked` query reports, whether the control exists) is environmental. -/

structure ObraPageEnv where
  checkedCount : Nat          -- tbody input:checked count after selection
  validateBtnFound : Bool     -- the Validate-selected-days control exists

def submitMissingMsg : String := "No se encontró el botón Validate selected days"

def validateObraNalanda (env : ObraPageEnv) : Except String Nat :=
  if env.validateBtnFound then Except.ok env.checkedCount
  else Except.error submitMissingMsg

/-! ## The Entry Validator, WORKER_CODE variant
(`validateJornadasPage`, Credentials.tsx lines 376-468)

A validation page is abstracted as a state `σ` holding the DOM, with
`query` giving the number of `.js-validar-parte` report actions in a state
and `step` the effect of clicking the first one and accepting its
confirmation dialog.  The probes of the checkbox variant are plain fields. -/

structure JornadasEnv (σ : Type) where
  emptyMarker : Bool          -- body text has an empty-state marker
  query : σ → Nat             -- count of .js-validar-parte actions
  step : σ → σ                -- click first action + confirm dialog
  s0 : σ                      -- DOM state on page entry
  headerCheckboxPresent : Bool
  bodyCheckboxCount : Nat
  checkedCount : Nat          -- tbody input:checked count after selection
  submitBtnFound : Bool       -- the Validate-selected-days control exists

/-- The batch-report loop `let maxAttempts = 20; while (maxAttempts-- > 0)`:
re-query the action list each cycle, stop when empty, otherwise click the
first action, confirm, and increment the count. -/
def validarPartesLoop (query : σ → Nat) (step : σ → σ) :
    Nat → σ → Nat → Nat × σ × List LogEntry
  | 0, s, acc => (acc, s, [])
  | fuel + 1, s, acc =>
    if query s = 0 then (acc, s, [])
    else
      let l1 := mkLog .info ("  Validando parte " ++ toString (acc + 1) ++ "...")
      let l2 := mkLog .success ("  Parte " ++ toString (acc + 1) ++ " validado correctamente")
      let r := validarPartesLoop query step fuel (step s) (acc + 1)
      (r.1, r.2.1, l1 :: l2 :: r.2.2)

/-- Function `validateJornadasPage(page)`: returns the validated count and logs. -/
def validateJornadasPage (env : JornadasEnv σ) : Nat × List LogEntry :=
  if env.emptyMarker then
    (0, [mkLog .info "  Sin partes pendientes en esta pagina"])
  else if 0 < env.query env.s0 then
    let intro := mkLog .info ("  Encontrados " ++ toString (env.query env.s0) ++
      " parte(s) mensual(es) para validar")
    let r := validarPartesLoop env.query env.step 20 env.s0 0
    (r.1, intro :: r.2.2)
  else if 0 < env.bodyCheckboxCount ∨ env.headerCheckboxPresent = true then
    let l1 := mkLog .info "  Encontrados checkboxes de trabajadores"
    let l2 := mkLog .info ("  -> " ++ toString env.checkedCount ++ " trabajadores seleccionados")
    if env.submitBtnFound then
      (env.checkedCount,
       [l1, l2, mkLog .success ("  " ++ toString env.checkedCount ++ " jornadas validadas")])
    else
      -- missing primary submit control: warning, return the (zero) count
      (0, [l1, l2, mkLog .warning "  No se encontro boton de validacion masiva"])
  else
    (0, [mkLog .warning "  No se encontraron elementos de validacion en la pagina"])

/-! ## The WORKER_CODE orchestrator (`main`, Credentials.tsx lines 561-660)

Structured-field discovery variant: one `getPendingDatesFromPage` read
yields every pending date; each is processed by the worker `processDay`
(which never throws, same skeleton as `processDay` above). -/

structure WorkerEnv where
  discovery : Except String (List String)   -- getPendingDatesFromPage outcome
  procDay : String → DaySummary × List LogEntry
  finalScan : Except String (List String)   -- final re-verification outcome

structure WorkerOutcome where
  summary : RunSummary
  logs : List LogEntry
  progress : List Nat
  processedDates : List String
  finalVerification : Bool

/-- Rounding `Math.round(a / b)` for nonnegative values. -/
def roundDiv (a b : Nat) : Nat := (2 * a + b) / (2 * b)

/-- The worker per-date loop (Credentials.tsx lines 641-648), carried over
the `enum`erated date list so progress can be reported per index. -/
def workerDaysLoop (procDay : String → DaySummary × List LogEntry) (n : Nat) :
    List (Nat × String) → RunSummary × List LogEntry × List Nat →
      RunSummary × List LogEntry × List Nat
  | [], st => st
  | (i, date) :: rest, st =>
    let r := procDay date
    let s := st.1
    let s2 : RunSummary :=
      { s with
          daysByDate := s.daysByDate ++ [r.1],
          totalValidated := s.totalValidated + r.1.workersValidated,
          monthsReviewed := s.monthsReviewed ++
            [⟨date, decide (0 < r.1.workersValidated)⟩] }
    workerDaysLoop procDay n rest
      (s2, st.2.1 ++ r.2, st.2.2 ++ [10 + roundDiv ((i + 1) * 80) n])

/-- Worker `main` from after the login: discovery, early exit on no pending
dates, per-date processing, final verification. -/
def workerMain (env : WorkerEnv) : WorkerOutcome :=
  let logs0 := [mkLog .info "Buscando todos los partes pendientes..."]
  let discLogs := scanWarnLogs "No se pudo leer las fechas pendientes: " env.discovery
  let pendingDates := datesOf env.discovery
  let emptySummary : RunSummary := ⟨0, [], [], []⟩
  if pendingDates.isEmpty then
    { summary := emptySummary,
      logs := logs0 ++ discLogs ++ [mkLog .success "No hay partes pendientes de validacion"],
      progress := [5, 100],
      processedDates := [],
      finalVerification := false }
  else
    let found := mkLog .info ("Encontrados " ++ toString pendingDates.length ++
      " dia(s) con partes pendientes: " ++ joinComma pendingDates)
    let st := workerDaysLoop env.procDay pendingDates.length pendingDates.enum
      (emptySummary, logs0 ++ discLogs ++ [found], [5, 10])
    let remaining := datesOf env.finalScan   -- the catch clause ignores the error
    let verdict :=
      if remaining.isEmpty then
        [mkLog .success "Verificacion final: no quedan partes pendientes"]
      else
        [mkLog .warning ("Verificacion final: aun quedan " ++ toString remaining.length ++
          " dia(s) pendiente(s): " ++ joinComma remaining)]
    let done := mkLog .success ("Proceso completado. Total: " ++
      toString st.1.totalValidated ++ " parte(s) validado(s) en " ++
      toString (st.1.daysByDate.filter (fun d => 0 < d.workersValidated)).length ++ " dia(s)")
    { summary := st.1,
      logs := st.2.1 ++ [mkLog .info "Realizando verificacion final..."] ++ verdict ++ [done],
      progress := st.2.2 ++ [100],
      processedDates := pendingDates,
      finalVerification := true }

/-! ## Structured-field discovery (`getPendingDatesFromPage`,
Credentials.tsx lines 350-373)

A pure string transformation; JS strings are embedded as `List Char` so
the split/join/trim pipeline can be reasoned about directly.  The JS
operations are mirrored exactly: `split(c)` on a one-character separator,
`join` with the empty separator, `trim()`, `filter(Boolean)`. -/

/-- JS `s.split(c)` for a single-character separator: `"".split(c) = [""]`. -/
def splitOnChar (c : Char) : List Char → List (List Char)
  | [] => [[]]
  | a :: t =>
    if a == c then [] :: splitOnChar c t
    else
      match splitOnChar c t with
      | [] => [[a]]
      | h :: r => (a :: h) :: r

/-- JS `s.trim()`. -/
def jsTrim (s : List Char) : List Char :=
  ((s.dropWhile Char.isWhitespace).reverse.dropWhile Char.isWhitespace).reverse

/-- The `d.split('-')`-based conversion of one date entry:
`parts.length === 3 ? parts[2]+'/'+parts[1]+'/'+parts[0] : d`. -/
def isoToQuery (d : List Char) : List Char :=
  match splitOnChar '-' d with
  | [y, m, dd] => dd ++ '/' :: m ++ '/' :: y
  | _ => d

/-- Parser `getPendingDatesFromPage` given the raw value of the hidden field. -/
def getPendingDatesFromPage (rawValue : List Char) : List (List Char) :=
  if rawValue = [] ∨ jsTrim rawValue = ['[', ']'] ∨ jsTrim rawValue = [] then []
  else
    -- rawValue.split('[').join('').split(']').join('').trim()
    let noOpen := (splitOnChar '[' rawValue).flatten
    let cleaned := jsTrim (splitOnChar ']' noOpen).flatten
    if cleaned = [] then []
    else
      let dates := ((splitOnChar ',' cleaned).map jsTrim).filter (fun d => !d.isEmpty)
      dates.map isoToQuery

/-! Specification-side vocabulary for the C5 claim: the shape of an ISO
`YYYY-MM-DD` date, the `[d1, d2, ..., dn]` field value it sits in, and the
expected `DD/MM/YYYY` conversion. -/

def digitChars : List Char := ['0', '1', '2', '3', '4', '5', '6', '7', '8', '9']

def isDigitCh (c : Char) : Bool := digitChars.contains c

/-- Shape `YYYY-MM-DD`: exactly ten characters, digits around two dashes. -/
def isIsoDate : List Char → Bool
  | [a, b, c, d, e, f, g, h, i, j] =>
    isDigitCh a && isDigitCh b && isDigitCh c && isDigitCh d && e == '-' &&
    isDigitCh f && isDigitCh g && h == '-' && isDigitCh i && isDigitCh j
  | _ => false

/-- The expected conversion of the claim, `YYYY-MM-DD ↦ DD/MM/YYYY`. -/
def specDmy : List Char → List Char
  | [a, b, c, d, _, f, g, _, i, j] => [i, j, '/', f, g, '/', a, b, c, d]
  | s => s

/-- Separator-joined list (the `", "`-separated body of the field value). -/
def joinSep (sep : List Char) : List (List Char) → List Char
  | [] => []
  | [d] => d
  | d :: e :: rest => d ++ sep ++ joinSep sep (e :: rest)

/-- The hidden-field value `[d1, d2, ..., dn]`. -/
def mkHiddenField (ds : List (List Char)) : List Char :=
  '[' :: (joinSep [',', ' '] ds ++ [']'])

/-! ## Closed forms for the orchestrator summary

The summary built by `runNalandaAutomation` is characterized component-wise
as a function of the scan outcomes and `procDay`; these closed forms carry
claims C1, C2, C6 and C9. -/

theorem processDates_daysByDate (procDay : String → DaySummary × List LogEntry)
    (dates : List String) (st : RunSummary × List LogEntry) :
    (processDates procDay dates st).1.daysByDate
      = st.1.daysByDate ++ dates.map (fun d => (procDay d).1) := by
  induction dates generalizing st with
  | nil => simp [processDates]
  | cons d rest ih =>
    simp only [processDates, List.foldl_cons] at *
    rw [ih]
    simp

theorem processDates_total (procDay : String → DaySummary × List LogEntry)
    (dates : List String) (st : RunSummary × List LogEntry) :
    (processDates procDay dates st).1.totalValidated
      = st.1.totalValidated + (dates.map (fun d => (procDay d).1.workersValidated)).sum := by
  induction dates generalizing st with
  | nil => simp [processDates]
  | cons d rest ih =>
    simp only [processDates, List.foldl_cons] at *
    rw [ih]
    simp [Nat.add_assoc]

theorem processDates_months (procDay : String → DaySummary × List LogEntry)
    (dates : List String) (st : RunSummary × List LogEntry) :
    (processDates procDay dates st).1.monthsReviewed = st.1.monthsReviewed := by
  induction dates generalizing st with
  | nil => simp [processDates]
  | cons d rest ih =>
    simp only [processDates, List.foldl_cons] at *
    rw [ih]

theorem reviewMonth_daysByDate (procDay : String → DaySummary × List LogEntry)
    (label : String) (scan : Except String (List String))
    (m1 m2 m3 m4 : String) (st : RunSummary × List LogEntry) :
    (reviewMonth procDay label scan m1 m2 m3 m4 st).1.daysByDate
      = st.1.daysByDate ++ (datesOf scan).map (fun d => (procDay d).1) := by
  unfold reviewMonth
  dsimp only
  split
  · rw [processDates_daysByDate]
  · next h =>
    have : datesOf scan = [] := by
      simpa using List.length_eq_zero.mp (Nat.eq_zero_of_not_pos h)
    simp [this]

theorem reviewMonth_total (procDay : String → DaySummary × List LogEntry)
    (label : String) (scan : Except String (List String))
    (m1 m2 m3 m4 : String) (st : RunSummary × List LogEntry) :
    (reviewMonth procDay label scan m1 m2 m3 m4 st).1.totalValidated
      = st.1.totalValidated
        + ((datesOf scan).map (fun d => (procDay d).1.workersValidated)).sum := by
  unfold reviewMonth
  dsimp only
  split
  · rw [processDates_total]
  · next h =>
    have : datesOf scan = [] := by
      simpa using List.length_eq_zero.mp (Nat.eq_zero_of_not_pos h)
    simp [this]

theorem reviewMonth_months (procDay : String → DaySummary × List LogEntry)
    (label : String) (scan : Except String (List String))
    (m1 m2 m3 m4 : String) (st : RunSummary × List LogEntry) :
    (reviewMonth procDay label scan m1 m2 m3 m4 st).1.monthsReviewed
      = st.1.monthsReviewed ++ [⟨label, decide (0 < (datesOf scan).length)⟩] := by
  unfold reviewMonth
  dsimp only
  split
  · next h => rw [processDates_months]; simp [decide_eq_true h]
  · next h =>
    have h0 : (datesOf scan).length = 0 := Nat.eq_zero_of_not_pos h
    simp [h0]

theorem reviewMonth_errors (procDay : String → DaySummary × List LogEntry)
    (label : String) (scan : Except String (List String))
    (m1 m2 m3 m4 : String) (st : RunSummary × List LogEntry) :
    (reviewMonth procDay label scan m1 m2 m3 m4 st).1.errors = st.1.errors := by
  have herr : ∀ dates st, (processDates procDay dates st).1.errors = st.1.errors := by
    intro dates
    induction dates with
    | nil => intro st; simp [processDates]
    | cons d rest ih =>
      intro st
      simp only [processDates, List.foldl_cons] at *
      rw [ih]
  unfold reviewMonth
  dsimp only
  split
  · rw [herr]
  · rfl

/-- All pending dates the scans report, in processing order. -/
def allScanDates (currentScan : Except String (List String))
    (priors : List (String × Except String (List String))) : List String :=
  datesOf currentScan ++ (priors.map (fun p => datesOf p.2)).flatten

theorem foldl_reviewStep_daysByDate (procDay : String → DaySummary × List LogEntry)
    (priors : List (String × Except String (List String)))
    (st : RunSummary × List LogEntry) :
    (priors.foldl (reviewStep procDay) st).1.daysByDate
      = st.1.daysByDate
        ++ ((priors.map (fun p => datesOf p.2)).flatten).map (fun d => (procDay d).1) := by
  induction priors generalizing st with
  | nil => simp
  | cons p rest ih =>
    simp only [List.foldl_cons, List.map_cons, List.flatten_cons, reviewStep]
    rw [ih, reviewMonth_daysByDate]
    simp

theorem foldl_reviewStep_total (procDay : String → DaySummary × List LogEntry)
    (priors : List (String × Except String (List String)))
    (st : RunSummary × List LogEntry) :
    (priors.foldl (reviewStep procDay) st).1.totalValidated
      = st.1.totalValidated
        + (((priors.map (fun p => datesOf p.2)).flatten).map
            (fun d => (procDay d).1.workersValidated)).sum := by
  induction priors generalizing st with
  | nil => simp
  | cons p rest ih =>
    simp only [List.foldl_cons, List.map_cons, List.flatten_cons, reviewStep]
    rw [ih, reviewMonth_total]
    simp [Nat.add_assoc]

theorem foldl_reviewStep_months (procDay : String → DaySummary × List LogEntry)
    (priors : List (String × Except String (List String)))
    (st : RunSummary × List LogEntry) :
    (priors.foldl (reviewStep procDay) st).1.monthsReviewed
      = st.1.monthsReviewed
        ++ priors.map (fun p => ⟨p.1, decide (0 < (datesOf p.2).length)⟩) := by
  induction priors generalizing st with
  | nil => simp
  | cons p rest ih =>
    simp only [List.foldl_cons, List.map_cons, reviewStep]
    rw [ih, reviewMonth_months]
    simp

/-- Closed form of the `daysByDate` field of the run summary. -/
theorem run_daysByDate (procDay : String → DaySummary × List LogEntry)
    (currentLabel : String)
    (priors : List (String × Except String (List String)))
    (currentScan finalScan : Except String (List String)) :
    (runNalandaAutomation procDay currentLabel priors currentScan finalScan).1.daysByDate
      = (allScanDates currentScan priors).map (fun d => (procDay d).1) := by
  unfold runNalandaAutomation allScanDates
  dsimp only
  split <;>
    simp [foldl_reviewStep_daysByDate, reviewMonth_daysByDate]

/-- Closed form of the `totalValidated` field of the run summary. -/
theorem run_total (procDay : String → DaySummary × List LogEntry)
    (currentLabel : String)
    (priors : List (String × Except String (List String)))
    (currentScan finalScan : Except String (List String)) :
    (runNalandaAutomation procDay currentLabel priors currentScan finalScan).1.totalValidated
      = ((allScanDates currentScan priors).map (fun d => (procDay d).1.workersValidated)).sum := by
  unfold runNalandaAutomation allScanDates
  dsimp only
  split <;>
    simp [foldl_reviewStep_total, reviewMonth_total]

/-- Closed form of the `monthsReviewed` field of the run summary. -/
theorem run_months (procDay : String → DaySummary × List LogEntry)
    (currentLabel : String)
    (priors : List (String × Except String (List String)))
    (currentScan finalScan : Except String (List String)) :
    (runNalandaAutomation procDay currentLabel priors currentScan finalScan).1.monthsReviewed
      = ⟨currentLabel, decide (0 < (datesOf currentScan).length)⟩
        :: priors.map (fun p => ⟨p.1, decide (0 < (datesOf p.2).length)⟩) := by
  unfold runNalandaAutomation
  dsimp only
  split <;>
    simp [foldl_reviewStep_months, reviewMonth_months]

/-! ## Closed forms for the worker summary -/

theorem workerDaysLoop_daysByDate (procDay : String → DaySummary × List LogEntry)
    (n : Nat) (l : List (Nat × String)) (st : RunSummary × List LogEntry × List Nat) :
    (workerDaysLoop procDay n l st).1.daysByDate
      = st.1.daysByDate ++ l.map (fun p => (procDay p.2).1) := by
  induction l generalizing st with
  | nil => simp [workerDaysLoop]
  | cons p rest ih =>
    obtain ⟨i, date⟩ := p
    simp only [workerDaysLoop]
    rw [ih]
    simp

theorem workerDaysLoop_total (procDay : String → DaySummary × List LogEntry)
    (n : Nat) (l : List (Nat × String)) (st : RunSummary × List LogEntry × List Nat) :
    (workerDaysLoop procDay n l st).1.totalValidated
      = st.1.totalValidated + (l.map (fun p => (procDay p.2).1.workersValidated)).sum := by
  induction l generalizing st with
  | nil => simp [workerDaysLoop]
  | cons p rest ih =>
    obtain ⟨i, date⟩ := p
    simp only [workerDaysLoop]
    rw [ih]
    simp [Nat.add_assoc]

theorem workerDaysLoop_months (procDay : String → DaySummary × List LogEntry)
    (n : Nat) (l : List (Nat × String)) (st : RunSummary × List LogEntry × List Nat) :
    (workerDaysLoop procDay n l st).1.monthsReviewed
      = st.1.monthsReviewed
        ++ l.map (fun p => ⟨p.2, decide (0 < (procDay p.2).1.workersValidated)⟩) := by
  induction l generalizing st with
  | nil => simp [workerDaysLoop]
  | cons p rest ih =>
    obtain ⟨i, date⟩ := p
    simp only [workerDaysLoop]
    rw [ih]
    simp

theorem enum_map_snd_comp {α β : Type} (f : α → β) (l : List α) :
    l.enum.map (fun p => f p.2) = l.map f := by
  rw [show (fun p : Nat × α => f p.2) = f ∘ Prod.snd from rfl, ← List.map_map,
    List.enum_map_snd]

theorem workerMain_daysByDate (env : WorkerEnv) :
    (workerMain env).summary.daysByDate
      = (datesOf env.discovery).map (fun d => (env.procDay d).1) := by
  unfold workerMain
  dsimp only
  split
  · next h => simp [List.isEmpty_iff.mp h]
  · rw [workerDaysLoop_daysByDate]
    simp only [RunSummary.daysByDate, List.nil_append]
    exact enum_map_snd_comp (fun d => (env.procDay d).1) _

theorem workerMain_total (env : WorkerEnv) :
    (workerMain env).summary.totalValidated
      = ((datesOf env.discovery).map (fun d => (env.procDay d).1.workersValidated)).sum := by
  unfold workerMain
  dsimp only
  split
  · next h => simp [List.isEmpty_iff.mp h]
  · rw [workerDaysLoop_total]
    simp only [RunSummary.totalValidated, Nat.zero_add]
    rw [enum_map_snd_comp (fun d => (env.procDay d).1.workersValidated)]

theorem workerMain_months (env : WorkerEnv) :
    (workerMain env).summary.monthsReviewed
      = (datesOf env.discovery).map
          (fun d => ⟨d, decide (0 < (env.procDay d).1.workersValidated)⟩) := by
  unfold workerMain
  dsimp only
  split
  · next h => simp [List.isEmpty_iff.mp h]
  · rw [workerDaysLoop_months]
    simp only [RunSummary.monthsReviewed, List.nil_append]
    exact enum_map_snd_comp
      (fun d => (⟨d, decide (0 < (env.procDay d).1.workersValidated)⟩ : MonthReviewed)) _

/-- C1.  For every completed run — any discovery outcomes, any per-day
results — the returned `RunSummary` satisfies
`totalValidated = sum(daysByDate[*].workersValidated)`, in both the server
orchestrator (`runNalandaAutomation`) and the WORKER_CODE orchestrator
(`workerMain`). -/
theorem claim_C1_accounting (procDay : String → DaySummary × List LogEntry)
    (currentLabel : String)
    (priors : List (String × Except String (List String)))
    (currentScan finalScan : Except String (List String)) (wenv : WorkerEnv) :
    ((runNalandaAutomation procDay currentLabel priors currentScan finalScan).1.totalValidated
      = (((runNalandaAutomation procDay currentLabel priors currentScan
          finalScan).1.daysByDate).map (·.workersValidated)).sum)
    ∧ ((workerMain wenv).summary.totalValidated
      = ((workerMain wenv).summary.daysByDate.map (·.workersValidated)).sum) := by
  constructor
  · rw [run_total, run_daysByDate, List.map_map]
    rfl
  · rw [workerMain_total, workerMain_daysByDate, List.map_map]
    rfl

/-! ## Claims C2, C9, C10 -/

/-- A trivial per-day processing outcome (used to instantiate the
universally quantified environments at concrete inputs). -/
def constProcDay : String → DaySummary × List LogEntry := fun d => (⟨d, 0, []⟩, [])

/-- Per-day processing where every date validates 3 worker entries on one
job site (the C9 concrete scenario: one site with 3 checkbox rows). -/
def threeWorkerProcDay : String → DaySummary × List LogEntry :=
  fun d => (⟨d, 3, ["Obra 1"]⟩, [])

/-- C2 counterexample.  If the same date string is reported by the
current-month scan and by a prior-month scan, `runNalandaAutomation`
processes it twice and it appears twice in `daysByDate`: the at-most-once
claim fails for such scan sequences (the code never deduplicates across
scans). -/
theorem claim_C2_counterexample :
    ((runNalandaAutomation constProcDay "02/2025"
        [("01/2025", Except.ok ["15/01/2025"])] (Except.ok ["15/01/2025"])
        (Except.ok [])).1.daysByDate.map (fun d => d.date))
      = ["15/01/2025", "15/01/2025"]
    ∧ ¬ ((runNalandaAutomation constProcDay "02/2025"
        [("01/2025", Except.ok ["15/01/2025"])] (Except.ok ["15/01/2025"])
        (Except.ok [])).1.daysByDate.map (fun d => d.date)).Nodup := by
  have h : ((runNalandaAutomation constProcDay "02/2025"
      [("01/2025", Except.ok ["15/01/2025"])] (Except.ok ["15/01/2025"])
      (Except.ok [])).1.daysByDate.map (fun d => d.date))
      = ["15/01/2025", "15/01/2025"] := by
    rw [run_daysByDate, List.map_map]
    rfl
  exact ⟨h, by rw [h]; decide⟩

/-- C2 (amended).  Each calendar date appears at most once among the date
fields of `daysByDate` *provided* the date lists produced by the distinct
discovery scans are jointly duplicate-free; when the same date string is
reported by two different month scans it is processed once per reporting
scan and appears that many times (see the counterexample). -/
theorem claim_C2_dates_at_most_once (procDay : String → DaySummary × List LogEntry)
    (currentLabel : String)
    (priors : List (String × Except String (List String)))
    (currentScan finalScan : Except String (List String))
    (hproc : ∀ d, ((procDay d).1).date = d)
    (hnodup : (allScanDates currentScan priors).Nodup) :
    ((runNalandaAutomation procDay currentLabel priors currentScan
        finalScan).1.daysByDate.map (fun d => d.date)).Nodup := by
  rw [run_daysByDate, List.map_map]
  have heq : (allScanDates currentScan priors).map
        ((fun d : DaySummary => d.date) ∘ fun d => (procDay d).1)
      = (allScanDates currentScan priors).map id :=
    List.map_congr_left (fun d _ => hproc d)
  rw [heq, List.map_id]
  exact hnodup

theorem claim_C2_dates_at_most_once_witness :
    (∀ d, ((constProcDay d).1).date = d)
    ∧ (allScanDates (Except.ok ["01/02/2025"])
        [("01/2025", Except.ok ["05/01/2025"])]).Nodup
    ∧ ((runNalandaAutomation constProcDay "02/2025"
        [("01/2025", Except.ok ["05/01/2025"])] (Except.ok ["01/02/2025"])
        (Except.ok [])).1.daysByDate.map (fun d => d.date)).Nodup :=
  ⟨fun _ => rfl, by decide,
    claim_C2_dates_at_most_once constProcDay "02/2025"
      [("01/2025", Except.ok ["05/01/2025"])] (Except.ok ["01/02/2025"])
      (Except.ok []) (fun _ => rfl) (by decide)⟩

/-- C9.  `monthsReviewed` is exactly one entry for the current month
followed by one entry per each of the `monthsBack` prior months, in order
(first conjunct); the reviewed window is the consecutive, gap-free month
sequence `t-1, ..., t-monthsBack` below the current month `t` (second
conjunct) and has no duplicate months (third conjunct).  In the
date-driven WORKER_CODE variant, `monthsReviewed` instead holds one entry
per pending date encountered, in discovery order (fourth conjunct).  The
final conjuncts are the concrete `monthsBack = 2` scenario with flagged
dates only in the first prior month. -/
theorem claim_C9_monthsReviewed (year month0 monthsBack : Nat)
    (hmb : monthsBack ≤ year * 12 + month0)
    (procDay : String → DaySummary × List LogEntry)
    (scanOf : Nat → Except String (List String))
    (currentScan finalScan : Except String (List String)) (wenv : WorkerEnv) :
    ((runNalandaAutomation procDay (currentLabelOf year month0)
        (((getMonthsToReview year month0 monthsBack).enum).map
          (fun p => (p.2.1, scanOf p.1)))
        currentScan finalScan).1.monthsReviewed.map (fun m => m.month)
      = currentLabelOf year month0
        :: (getMonthsToReviewT year month0 monthsBack).map monthLabelOfT)
    ∧ getMonthsToReviewT year month0 monthsBack
      = (List.range monthsBack).map (fun i => year * 12 + month0 - (i + 1))
    ∧ ((year * 12 + month0) :: getMonthsToReviewT year month0 monthsBack).Nodup
    ∧ ((workerMain wenv).summary.monthsReviewed.map (fun m => m.month)
      = datesOf wenv.discovery)
    ∧ ((runNalandaAutomation threeWorkerProcDay "02/2025"
        [("01/2025", Except.ok ["05/01/2025", "17/01/2025"]), ("12/2024", Except.ok [])]
        (Except.ok []) (Except.ok [])).1.monthsReviewed
      = [⟨"02/2025", false⟩, ⟨"01/2025", true⟩, ⟨"12/2024", false⟩])
    ∧ (getMonthsToReview 2025 1 2).map (fun p => p.1) = ["01/2025", "12/2024"]
    ∧ currentLabelOf 2025 1 = "02/2025" := by
  refine ⟨?_, rfl, ?_, ?_, by decide, by decide, by decide⟩
  · rw [run_months]
    simp only [List.map_cons]
    congr 1
    rw [List.map_map, List.map_map]
    show ((getMonthsToReview year month0 monthsBack).enum).map
        (fun p => (fun q : String × String => q.1) p.2) = _
    rw [enum_map_snd_comp (fun q : String × String => q.1)]
    unfold getMonthsToReview
    rw [List.map_map]
    rfl
  · rw [List.nodup_cons]
    constructor
    · intro hmem
      simp only [getMonthsToReviewT, List.mem_map, List.mem_range] at hmem
      obtain ⟨i, hi, hit⟩ := hmem
      omega
    · unfold getMonthsToReviewT
      apply List.Nodup.map_on
      · intro i hi j hj hij
        simp only [List.mem_range] at hi hj
        omega
      · exact List.nodup_range monthsBack
  · rw [workerMain_months, List.map_map]
    show (datesOf wenv.discovery).map (fun d => d) = datesOf wenv.discovery
    simp

theorem claim_C9_monthsReviewed_witness :
    2 ≤ 2025 * 12 + 1
    ∧ ((2025 * 12 + 1) :: getMonthsToReviewT 2025 1 2).Nodup :=
  ⟨by decide,
    (claim_C9_monthsReviewed 2025 1 2 (by decide) constProcDay
      (fun _ => Except.ok []) (Except.ok []) (Except.ok [])
      ⟨Except.ok [], constProcDay, Except.ok []⟩).2.2.1⟩

/-- C10.  In the WORKER_CODE structured-field variant, a run whose
discovery yields zero pending dates terminates immediately with the
all-empty summary, reports progress `[5, 100]` (ending at 100%), processes
no day, and never performs the final re-verification pass.  The hypothesis
covers both an empty date list and a discovery read that threw (which is
caught and treated as empty). -/
theorem claim_C10_empty_discovery (env : WorkerEnv)
    (h : datesOf env.discovery = []) :
    (workerMain env).summary = ⟨0, [], [], []⟩
    ∧ (workerMain env).progress = [5, 100]
    ∧ (workerMain env).processedDates = []
    ∧ (workerMain env).finalVerification = false := by
  unfold workerMain
  dsimp only
  rw [h]
  simp

theorem claim_C10_empty_discovery_witness :
    datesOf (Except.ok ([] : List String)) = []
    ∧ ((workerMain ⟨Except.ok [], constProcDay, Except.ok []⟩).summary = ⟨0, [], [], []⟩
      ∧ (workerMain ⟨Except.ok [], constProcDay, Except.ok []⟩).progress = [5, 100]
      ∧ (workerMain ⟨Except.ok [], constProcDay, Except.ok []⟩).processedDates = []
      ∧ (workerMain ⟨Except.ok [], constProcDay, Except.ok []⟩).finalVerification = false) :=
  ⟨rfl, claim_C10_empty_discovery ⟨Except.ok [], constProcDay, Except.ok []⟩ rfl⟩

/-! ## Claim C6: discovery degradation -/

theorem reviewMonth_error_logs (procDay : String → DaySummary × List LogEntry)
    (label e : String) (m1 m2 m3 m4 : String) (st : RunSummary × List LogEntry) :
    (reviewMonth procDay label (Except.error e) m1 m2 m3 m4 st).2
      = st.2 ++ [mkLog .info m1, mkLog .warning (m2 ++ e), mkLog .success m4] := by
  unfold reviewMonth
  dsimp only
  simp [scanWarnLogs, datesOf]

theorem foldl_error_warncount (procDay : String → DaySummary × List LogEntry)
    (priorFails : List (String × String)) (st : RunSummary × List LogEntry) :
    countLevel .warning
        (((priorFails.map (fun p => (p.1, Except.error p.2))).foldl
          (reviewStep procDay) st).2)
      = countLevel .warning st.2 + priorFails.length := by
  induction priorFails generalizing st with
  | nil => simp
  | cons p rest ih =>
    simp only [List.map_cons, List.foldl_cons, reviewStep]
    rw [ih, reviewMonth_error_logs, countLevel_append]
    simp [countLevel, mkLog]
    omega

/-- C6 counterexample.  The final verification pass swallows a thrown
calendar read silently (the empty catch clause of nalanda.ts lines
396-399): in a run whose only scan failure is the final pass, the log
stream contains *no* warning at all, so "a warning log is emitted" is
false for that scope. -/
theorem claim_C6_counterexample :
    countLevel .warning
      (runNalandaAutomation constProcDay "02/2025" []
        (Except.ok []) (Except.error "calendar read failed")).2 = 0 := by
  decide

/-- C6 (amended).  For the current-month scope and each prior-month scope,
a thrown calendar read is caught: that scope contributes an empty date
list and exactly one warning, and the run continues through every
remaining scope (here all scans throw: the warnings number exactly
1 + number of prior months, no day is processed, and every scope still
produces its `monthsReviewed` entry).  The final verification pass also
catches and continues, but emits no warning (see the counterexample). -/
theorem claim_C6_scan_failure_degradation
    (procDay : String → DaySummary × List LogEntry)
    (currentLabel e0 efin : String) (priorFails : List (String × String)) :
    countLevel .warning
        ((runNalandaAutomation procDay currentLabel
          (priorFails.map (fun p => (p.1, Except.error p.2)))
          (Except.error e0) (Except.error efin)).2)
      = 1 + priorFails.length
    ∧ (runNalandaAutomation procDay currentLabel
          (priorFails.map (fun p => (p.1, Except.error p.2)))
          (Except.error e0) (Except.error efin)).1.daysByDate = []
    ∧ (runNalandaAutomation procDay currentLabel
          (priorFails.map (fun p => (p.1, Except.error p.2)))
          (Except.error e0) (Except.error efin)).1.monthsReviewed
      = ⟨currentLabel, false⟩ :: priorFails.map (fun p => ⟨p.1, false⟩)
    ∧ (runNalandaAutomation procDay currentLabel
          (priorFails.map (fun p => (p.1, Except.error p.2)))
          (Except.error e0) (Except.error efin)).1.totalValidated = 0 := by
  refine ⟨?_, ?_, ?_, ?_⟩
  · unfold runNalandaAutomation
    dsimp only
    split
    · rw [countLevel_append, countLevel_append, countLevel_append,
        foldl_error_warncount, reviewMonth_error_logs]
      simp [countLevel, mkLog]
    · next h => exact absurd rfl h
  · rw [run_daysByDate]
    simp [allScanDates, datesOf, List.map_map, Function.comp]
  · rw [run_months]
    simp [datesOf, List.map_map, Function.comp]
  · have hfl : ((priorFails.map (fun p => (p.1, Except.error p.2))).map
        (fun p => datesOf p.2)).flatten = ([] : List String) := by
      induction priorFails with
      | nil => rfl
      | cons q rest ih => simp [datesOf, ih]
    rw [run_total]
    unfold allScanDates
    rw [hfl]
    simp [datesOf]

/-! ## Claim C3: retry exhaustion of processDay -/

theorem processDayLoop_all_fail (date : String) (retries : Nat)
    (env : Nat → AttemptOutcome)
    (hfail : ∀ i, ∃ e l, env i = AttemptOutcome.fail e l)
    (hclean : ∀ i e l, env i = AttemptOutcome.fail e l →
      countLevel .warning l = 0 ∧ countLevel .error l = 0) :
    ∀ rem, 1 ≤ rem → ∀ attempt,
      (processDayLoop date retries env attempt rem).1 = ⟨date, 0, []⟩
      ∧ (processDayLoop date retries env attempt rem).2.2 = rem
      ∧ countLevel .warning (processDayLoop date retries env attempt rem).2.1 = rem - 1
      ∧ countLevel .error (processDayLoop date retries env attempt rem).2.1 = 1 := by
  intro rem
  induction rem with
  | zero => intro h; omega
  | succ n ih =>
    intro _ attempt
    obtain ⟨e, l, henv⟩ := hfail attempt
    obtain ⟨hw, he⟩ := hclean attempt e l henv
    simp only [processDayLoop, henv]
    by_cases hn : n > 0
    · obtain ⟨ih1, ih2, ih3, ih4⟩ := ih (by omega) (attempt + 1)
      rw [if_pos hn]
      refine ⟨ih1, by rw [ih2], ?_, ?_⟩
      · rw [countLevel_append, countLevel_append, countLevel_append, ih3, hw]
        simp [countLevel, mkLog]
        omega
      · rw [countLevel_append, countLevel_append, countLevel_append, ih4, he]
        simp [countLevel, mkLog]
    · rw [if_neg hn]
      have hn0 : n = 0 := by omega
      subst hn0
      refine ⟨rfl, rfl, ?_, ?_⟩
      · rw [countLevel_append, countLevel_append, hw]
        simp [countLevel, mkLog]
      · rw [countLevel_append, countLevel_append, he]
        simp [countLevel, mkLog]

/-- C3.  When every attempt of `processDay` throws: the call returns the
zero-result summary for the date (never throwing — the embedding is a
total function), makes exactly `retries` attempts, and its log stream
contains exactly one warning per failed attempt before the last
(`retries - 1` in total) and exactly one error after the last.  The
`hclean` hypothesis records the source fact that a throwing attempt has
emitted only info/success lines before the throw (every log statement
preceding a throw site in the `try` block of nalanda.ts lines 186-277 is
info or success). -/
theorem claim_C3_retry_exhaustion (date : String) (env : Nat → AttemptOutcome)
    (retries : Nat) (hr : 1 ≤ retries)
    (hfail : ∀ i, ∃ e l, env i = AttemptOutcome.fail e l)
    (hclean : ∀ i e l, env i = AttemptOutcome.fail e l →
      countLevel .warning l = 0 ∧ countLevel .error l = 0) :
    (processDay date env retries).1 = ⟨date, 0, []⟩
    ∧ (processDay date env retries).2.2 = retries
    ∧ countLevel .warning (processDay date env retries).2.1 = retries - 1
    ∧ countLevel .error (processDay date env retries).2.1 = 1 :=
  processDayLoop_all_fail date retries env hfail hclean retries hr 1

/-- An environment in which every attempt throws a navigation timeout
without logging anything further. -/
def allFailEnv : Nat → AttemptOutcome := fun _ => .fail "timeout" []

theorem claim_C3_retry_exhaustion_witness :
    1 ≤ 3
    ∧ ((processDay "15/01/2025" allFailEnv 3).1 = ⟨"15/01/2025", 0, []⟩
      ∧ (processDay "15/01/2025" allFailEnv 3).2.2 = 3
      ∧ countLevel .warning (processDay "15/01/2025" allFailEnv 3).2.1 = 3 - 1
      ∧ countLevel .error (processDay "15/01/2025" allFailEnv 3).2.1 = 1) :=
  ⟨by decide,
    claim_C3_retry_exhaustion "15/01/2025" allFailEnv 3 (by decide)
      (fun _ => ⟨"timeout", [], rfl⟩)
      (fun _ e l h => by cases h; exact ⟨rfl, rfl⟩)⟩

/-! ## Claim C4: login short-circuit on a warm session -/

/-- Number of log entries carrying a given message. -/
def countMsg (msg : String) (logs : List LogEntry) : Nat :=
  (logs.filter (fun l => l.message = msg)).length

/-- C4.  If the URL after the entry navigation is inside the
authenticated application domain and not on the identity-provider
subdomain, `login` succeeds immediately: the only page action issued is
the initial navigation — no selector wait, no field fill, no click — and
exactly one "Sesión ya activa, continuando..." log line is emitted. -/
theorem claim_C4_login_short_circuit (u p : String) (env : LoginEnv)
    (h1 : jsIncludes env.landedUrl "app.nalandaglobal.com" = true)
    (h2 : jsIncludes env.landedUrl "identity.nalandaglobal.com" = false) :
    (login u p env).1 = Except.ok ()
    ∧ (login u p env).2.1 = [PageAction.goto nalandaUrl]
    ∧ countMsg "Sesión ya activa, continuando..." (login u p env).2.2 = 1
    ∧ (∀ s v, PageAction.fill s v ∉ (login u p env).2.1)
    ∧ (∀ s, PageAction.click s ∉ (login u p env).2.1) := by
  have hacts : (login u p env).2.1 = [PageAction.goto nalandaUrl] := by
    simp [login, h1, h2]
  refine ⟨by simp [login, h1, h2], hacts, ?_, ?_, ?_⟩
  · simp [login, h1, h2, countMsg, mkLog]
  · intro s v
    rw [hacts]
    simp
  · intro s
    rw [hacts]
    simp

/-- A browser environment whose initial navigation lands on an
authenticated page (warm session on the shared browser). -/
def warmLoginEnv : LoginEnv :=
  ⟨"https://app.nalandaglobal.com/home/inicio.action", true, true, none⟩

theorem claim_C4_login_short_circuit_witness :
    jsIncludes warmLoginEnv.landedUrl "app.nalandaglobal.com" = true
    ∧ jsIncludes warmLoginEnv.landedUrl "identity.nalandaglobal.com" = false
    ∧ ((login "user" "pw" warmLoginEnv).1 = Except.ok ()
      ∧ (login "user" "pw" warmLoginEnv).2.1 = [PageAction.goto nalandaUrl]
      ∧ countMsg "Sesión ya activa, continuando..." (login "user" "pw" warmLoginEnv).2.2 = 1
      ∧ (∀ s v, PageAction.fill s v ∉ (login "user" "pw" warmLoginEnv).2.1)
      ∧ (∀ s, PageAction.click s ∉ (login "user" "pw" warmLoginEnv).2.1)) :=
  ⟨by decide, by decide,
    claim_C4_login_short_circuit "user" "pw" warmLoginEnv (by decide) (by decide)⟩

/-! ## Claims C7 and C8: the Entry Validator variants -/

theorem validarPartesLoop_le {σ : Type} (q : σ → Nat) (st : σ → σ) :
    ∀ (fuel : Nat) (s : σ) (acc : Nat),
      (validarPartesLoop q st fuel s acc).1 ≤ acc + fuel := by
  intro fuel
  induction fuel with
  | zero => intro s acc; simp [validarPartesLoop]
  | succ n ih =>
    intro s acc
    by_cases h0 : q s = 0
    · simp [validarPartesLoop, h0]
    · simp only [validarPartesLoop, if_neg h0]
      have := ih (st s) (acc + 1)
      omega

theorem validarPartesLoop_count {σ : Type} (query : σ → Nat) (step : σ → σ)
    (hshrink : ∀ s, 0 < query s → query (step s) = query s - 1) :
    ∀ (fuel : Nat) (s : σ) (acc : Nat), query s ≤ fuel →
      (validarPartesLoop query step fuel s acc).1 = acc + query s := by
  intro fuel
  induction fuel with
  | zero =>
    intro s acc h
    have h0 : query s = 0 := Nat.le_zero.mp h
    simp [validarPartesLoop, h0]
  | succ n ih =>
    intro s acc h
    by_cases h0 : query s = 0
    · simp [validarPartesLoop, h0]
    · have hpos : 0 < query s := Nat.pos_of_ne_zero h0
      simp only [validarPartesLoop, if_neg h0]
      rw [ih (step s) (acc + 1) (by rw [hshrink s hpos]; omega)]
      rw [hshrink s hpos]
      omega

theorem query_iterate_zero {σ : Type} (query : σ → Nat) (step : σ → σ)
    (hshrink : ∀ s, 0 < query s → query (step s) = query s - 1) :
    ∀ (n : Nat) (s : σ), query s = n → query (step^[n] s) = 0 := by
  intro n
  induction n with
  | zero => intro s h; simpa using h
  | succ k ih =>
    intro s h
    rw [Function.iterate_succ_apply]
    exact ih (step s) (by rw [hshrink s (by omega), h]; omega)

/-- The WORKER_CODE batch-report page used in the concrete C8 scenario:
two report actions; each click-and-confirm removes one. -/
def natBatchTwo : JornadasEnv Nat :=
  ⟨false, id, (· - 1), 2, false, 0, 0, false⟩

/-- C8.  In the batch-report variant: the loop re-queries the action list
each cycle and increments the validated count by exactly one per cycle, so
when every click-and-confirm removes one action, the final count equals
the initial number of report actions (first conjunct); the loop is capped
at 20 iterations, so its count is bounded whatever the page does — it
terminates even if the DOM stops shrinking (second conjunct); after the
clicks the re-queried action list is empty (third conjunct).  The last two
conjuncts are the concrete 2-report scenario: `validatedCount = 2` and the
re-queried list is empty after the second click. -/
theorem claim_C8_batch_report_loop {σ : Type} (env : JornadasEnv σ)
    (hempty : env.emptyMarker = false)
    (hshrink : ∀ s, 0 < env.query s → env.query (env.step s) = env.query s - 1)
    (hpos : 0 < env.query env.s0)
    (hbound : env.query env.s0 ≤ 20) :
    (validateJornadasPage env).1 = env.query env.s0
    ∧ (∀ (q : σ → Nat) (st : σ → σ) (fuel : Nat) (s : σ) (acc : Nat),
        (validarPartesLoop q st fuel s acc).1 ≤ acc + fuel)
    ∧ env.query (env.step^[env.query env.s0] env.s0) = 0
    ∧ (validateJornadasPage natBatchTwo).1 = 2
    ∧ natBatchTwo.query (natBatchTwo.step (natBatchTwo.step natBatchTwo.s0)) = 0 := by
  refine ⟨?_, fun q st => validarPartesLoop_le q st, ?_, by decide, by decide⟩
  · unfold validateJornadasPage
    rw [if_neg (by simp [hempty]), if_pos hpos]
    dsimp only
    rw [validarPartesLoop_count env.query env.step hshrink 20 env.s0 0 hbound]
    omega
  · exact query_iterate_zero env.query env.step hshrink (env.query env.s0) env.s0 rfl

theorem claim_C8_batch_report_loop_witness :
    natBatchTwo.emptyMarker = false
    ∧ (∀ s, 0 < natBatchTwo.query s → natBatchTwo.query (natBatchTwo.step s)
        = natBatchTwo.query s - 1)
    ∧ 0 < natBatchTwo.query natBatchTwo.s0
    ∧ natBatchTwo.query natBatchTwo.s0 ≤ 20
    ∧ (validateJornadasPage natBatchTwo).1 = natBatchTwo.query natBatchTwo.s0 :=
  ⟨rfl, fun _ _ => rfl, by decide, by decide,
    (claim_C8_batch_report_loop natBatchTwo rfl (fun _ _ => rfl)
      (by decide) (by decide)).1⟩

/-- The WORKER_CODE checkbox page of the C7 counterexample: no empty-state
marker, no report actions, three worker checkboxes, and no
"Validate selected days" control. -/
def noSubmitPage : JornadasEnv Nat :=
  ⟨false, fun _ => 0, id, 0, false, 3, 3, false⟩

/-- C7 counterexample.  In the WORKER_CODE itemized variant
(`validateJornadasPage`, Credentials.tsx lines 446-464), a missing
"Validate selected days" control does *not* escalate: the function logs a
warning and returns a zero count normally — exactly the
"silently treated as nothing to validate" outcome the claim excludes —
so the retry path of `processDay` is never triggered for this page state. -/
theorem claim_C7_counterexample :
    validateJornadasPage noSubmitPage
      = (0, [mkLog .info "  Encontrados checkboxes de trabajadores",
             mkLog .info "  -> 3 trabajadores seleccionados",
             mkLog .warning "  No se encontro boton de validacion masiva"]) := by
  decide

/-- C7 (amended).  In the server variant (nalanda.ts lines 246-250) a
missing "Validate selected days" control throws, so the failure reaches
the catch of `processDay` and consumes its retries: an attempt failing this way
makes `processDay` run all `retries` attempts (≥ 2, i.e. the retry path is
actually taken).  In the WORKER_CODE variant, by contrast, the same page
state yields a warning log and a zero count with no escalation. -/
theorem claim_C7_submit_button_missing (env : ObraPageEnv)
    (h : env.validateBtnFound = false) (date : String) (retries : Nat)
    (hr : 2 ≤ retries) {σ : Type} (wenv : JornadasEnv σ)
    (hw1 : wenv.emptyMarker = false) (hw2 : wenv.query wenv.s0 = 0)
    (hw3 : 0 < wenv.bodyCheckboxCount ∨ wenv.headerCheckboxPresent = true)
    (hw4 : wenv.submitBtnFound = false) :
    validateObraNalanda env = Except.error submitMissingMsg
    ∧ (processDay date (fun _ => AttemptOutcome.fail submitMissingMsg []) retries).2.2
      = retries
    ∧ 2 ≤ (processDay date (fun _ => AttemptOutcome.fail submitMissingMsg []) retries).2.2
    ∧ (validateJornadasPage wenv).1 = 0
    ∧ countLevel .warning (validateJornadasPage wenv).2 = 1 := by
  have hattempts : (processDay date
      (fun _ => AttemptOutcome.fail submitMissingMsg []) retries).2.2 = retries :=
    (processDayLoop_all_fail date retries _
      (fun _ => ⟨submitMissingMsg, [], rfl⟩)
      (fun _ e l hel => by cases hel; exact ⟨rfl, rfl⟩) retries (by omega) 1).2.1
  have hworker : validateJornadasPage wenv
      = (0, [mkLog .info "  Encontrados checkboxes de trabajadores",
             mkLog .info ("  -> " ++ toString wenv.checkedCount ++ " trabajadores seleccionados"),
             mkLog .warning "  No se encontro boton de validacion masiva"]) := by
    unfold validateJornadasPage
    rw [if_neg (by simp [hw1]), if_neg (by simp [hw2]), if_pos hw3, if_neg (by simp [hw4])]
  refine ⟨by simp [validateObraNalanda, h], hattempts, by omega, ?_, ?_⟩
  · rw [hworker]
  · rw [hworker]
    simp [countLevel, mkLog]

/-! ## Claim C5: structured-field discovery parsing

Supporting lemmas about the `List Char` embeddings of the JS string
operations. -/

theorem splitOnChar_not_mem (c : Char) (s : List Char) (h : c ∉ s) :
    splitOnChar c s = [s] := by
  induction s with
  | nil => rfl
  | cons a t ih =>
    rw [List.mem_cons] at h
    push_neg at h
    have ha : (a == c) = false := by
      simp only [beq_eq_false_iff_ne]
      exact fun he => h.1 he.symm
    simp [splitOnChar, ha, ih h.2]

theorem splitOnChar_append (c : Char) (d t : List Char) (h : c ∉ d) :
    splitOnChar c (d ++ c :: t) = d :: splitOnChar c t := by
  induction d with
  | nil => simp [splitOnChar]
  | cons a dd ih =>
    rw [List.mem_cons] at h
    push_neg at h
    have ha : (a == c) = false := by
      simp only [beq_eq_false_iff_ne]
      exact fun he => h.1 he.symm
    simp [splitOnChar, ha, ih h.2]

theorem dropWhile_all_ws (w : List Char) (h : ∀ x ∈ w, x.isWhitespace = true) :
    w.dropWhile Char.isWhitespace = [] := by
  induction w with
  | nil => rfl
  | cons a t ih =>
    rw [List.dropWhile_cons, if_pos (h a (List.mem_cons_self a t))]
    exact ih (fun x hx => h x (List.mem_cons_of_mem a hx))

theorem jsTrim_all_ws (w : List Char) (h : ∀ x ∈ w, x.isWhitespace = true) :
    jsTrim w = [] := by
  unfold jsTrim
  rw [dropWhile_all_ws w h]
  rfl

theorem jsTrim_eq_self (x y : Char) (m : List Char)
    (hx : x.isWhitespace = false) (hy : y.isWhitespace = false) :
    jsTrim (x :: (m ++ [y])) = x :: (m ++ [y]) := by
  unfold jsTrim
  rw [List.dropWhile_cons, if_neg (by simp [hx])]
  have hrev : (x :: (m ++ [y])).reverse = y :: (m.reverse ++ [x]) := by simp
  rw [hrev, List.dropWhile_cons, if_neg (by simp [hy])]
  simp

theorem jsTrim_cons_space (s : List Char) : jsTrim (' ' :: s) = jsTrim s := by
  unfold jsTrim
  rw [List.dropWhile_cons, if_pos (by decide)]

theorem isDigitCh_spec (c : Char) (h : isDigitCh c = true) :
    c ≠ '[' ∧ c ≠ ']' ∧ c ≠ ',' ∧ c ≠ '-' ∧ c.isWhitespace = false := by
  simp only [isDigitCh, digitChars, List.contains, List.elem_eq_mem, List.mem_cons,
    List.not_mem_nil, or_false, decide_eq_true_eq] at h
  rcases h with rfl | rfl | rfl | rfl | rfl | rfl | rfl | rfl | rfl | rfl <;> decide

theorem iso_parts {s : List Char} (h : isIsoDate s = true) :
    ∃ a b c d m1 m2 e f,
      s = [a, b, c, d, '-', m1, m2, '-', e, f]
      ∧ isDigitCh a = true ∧ isDigitCh b = true ∧ isDigitCh c = true
      ∧ isDigitCh d = true ∧ isDigitCh m1 = true ∧ isDigitCh m2 = true
      ∧ isDigitCh e = true ∧ isDigitCh f = true := by
  rcases s with _ | ⟨a, _ | ⟨b, _ | ⟨c, _ | ⟨d, _ | ⟨e5, _ | ⟨m1, _ | ⟨m2, _ |
    ⟨h8, _ | ⟨e, _ | ⟨f, _ | ⟨k, t⟩⟩⟩⟩⟩⟩⟩⟩⟩⟩⟩ <;>
      simp only [isIsoDate, Bool.and_eq_true, beq_iff_eq, Bool.false_eq_true] at h
  obtain ⟨⟨⟨⟨⟨⟨⟨⟨⟨ha, hb⟩, hc⟩, hd⟩, he5⟩, hm1⟩, hm2⟩, hh8⟩, he⟩, hf⟩ := h
  subst he5 hh8
  exact ⟨a, b, c, d, m1, m2, e, f, rfl, ha, hb, hc, hd, hm1, hm2, he, hf⟩

theorem iso_mem_safe {d : List Char} (h : isIsoDate d = true) :
    ∀ c ∈ d, c ≠ '[' ∧ c ≠ ']' ∧ c ≠ ',' := by
  obtain ⟨a, b, c0, d4, m1, m2, e, f, hs, ha, hb, hc0, hd4, hm1, hm2, he, hf⟩ :=
    iso_parts h
  subst hs
  intro c hc
  simp only [List.mem_cons, List.not_mem_nil, or_false] at hc
  rcases hc with rfl | rfl | rfl | rfl | rfl | rfl | rfl | rfl | rfl | rfl
  · exact ⟨(isDigitCh_spec _ ha).1, (isDigitCh_spec _ ha).2.1, (isDigitCh_spec _ ha).2.2.1⟩
  · exact ⟨(isDigitCh_spec _ hb).1, (isDigitCh_spec _ hb).2.1, (isDigitCh_spec _ hb).2.2.1⟩
  · exact ⟨(isDigitCh_spec _ hc0).1, (isDigitCh_spec _ hc0).2.1, (isDigitCh_spec _ hc0).2.2.1⟩
  · exact ⟨(isDigitCh_spec _ hd4).1, (isDigitCh_spec _ hd4).2.1, (isDigitCh_spec _ hd4).2.2.1⟩
  · decide
  · exact ⟨(isDigitCh_spec _ hm1).1, (isDigitCh_spec _ hm1).2.1, (isDigitCh_spec _ hm1).2.2.1⟩
  · exact ⟨(isDigitCh_spec _ hm2).1, (isDigitCh_spec _ hm2).2.1, (isDigitCh_spec _ hm2).2.2.1⟩
  · decide
  · exact ⟨(isDigitCh_spec _ he).1, (isDigitCh_spec _ he).2.1, (isDigitCh_spec _ he).2.2.1⟩
  · exact ⟨(isDigitCh_spec _ hf).1, (isDigitCh_spec _ hf).2.1, (isDigitCh_spec _ hf).2.2.1⟩

theorem iso_trim {d : List Char} (h : isIsoDate d = true) :
    jsTrim d = d ∧ d ≠ [] := by
  obtain ⟨a, b, c0, d4, m1, m2, e, f, hs, ha, _, _, _, _, _, _, hf⟩ := iso_parts h
  subst hs
  refine ⟨?_, by simp⟩
  exact jsTrim_eq_self a f [b, c0, d4, '-', m1, m2, '-', e]
    (isDigitCh_spec a ha).2.2.2.2 (isDigitCh_spec f hf).2.2.2.2

theorem iso_isoToQuery {s : List Char} (h : isIsoDate s = true) :
    isoToQuery s = specDmy s := by
  obtain ⟨a, b, c0, d4, m1, m2, e, f, hs, ha, hb, hc0, hd4, hm1, hm2, he, hf⟩ :=
    iso_parts h
  subst hs
  have hy : ('-' : Char) ∉ [a, b, c0, d4] := by
    intro hm
    simp only [List.mem_cons, List.not_mem_nil, or_false] at hm
    rcases hm with rfl | rfl | rfl | rfl
    · exact (isDigitCh_spec _ ha).2.2.2.1 rfl
    · exact (isDigitCh_spec _ hb).2.2.2.1 rfl
    · exact (isDigitCh_spec _ hc0).2.2.2.1 rfl
    · exact (isDigitCh_spec _ hd4).2.2.2.1 rfl
  have hm : ('-' : Char) ∉ [m1, m2] := by
    intro hm
    simp only [List.mem_cons, List.not_mem_nil, or_false] at hm
    rcases hm with rfl | rfl
    · exact (isDigitCh_spec _ hm1).2.2.2.1 rfl
    · exact (isDigitCh_spec _ hm2).2.2.2.1 rfl
  have hd2 : ('-' : Char) ∉ [e, f] := by
    intro hm
    simp only [List.mem_cons, List.not_mem_nil, or_false] at hm
    rcases hm with rfl | rfl
    · exact (isDigitCh_spec _ he).2.2.2.1 rfl
    · exact (isDigitCh_spec _ hf).2.2.2.1 rfl
  have h1 : splitOnChar '-' ([a, b, c0, d4] ++ '-' :: ([m1, m2] ++ '-' :: [e, f]))
      = [a, b, c0, d4] :: splitOnChar '-' ([m1, m2] ++ '-' :: [e, f]) :=
    splitOnChar_append '-' [a, b, c0, d4] _ hy
  have h2 : splitOnChar '-' ([m1, m2] ++ '-' :: [e, f])
      = [m1, m2] :: splitOnChar '-' [e, f] :=
    splitOnChar_append '-' [m1, m2] _ hm
  have h3 : splitOnChar '-' [e, f] = [[e, f]] := splitOnChar_not_mem '-' _ hd2
  have sp : splitOnChar '-' [a, b, c0, d4, '-', m1, m2, '-', e, f]
      = [[a, b, c0, d4], [m1, m2], [e, f]] := by
    rw [show ([a, b, c0, d4, '-', m1, m2, '-', e, f] : List Char)
        = [a, b, c0, d4] ++ '-' :: ([m1, m2] ++ '-' :: [e, f]) from rfl, h1, h2, h3]
  unfold isoToQuery specDmy
  rw [sp]
  rfl

theorem joinSep_mem (sep : List Char) (ds : List (List Char)) (c : Char)
    (h : c ∈ joinSep sep ds) : c ∈ sep ∨ ∃ d ∈ ds, c ∈ d := by
  induction ds with
  | nil => simp [joinSep] at h
  | cons d rest ih =>
    cases rest with
    | nil =>
      simp only [joinSep] at h
      exact Or.inr ⟨d, by simp, h⟩
    | cons e rr =>
      simp only [joinSep, List.append_assoc, List.mem_append] at h
      rcases h with h | h | h
      · exact Or.inr ⟨d, by simp, h⟩
      · exact Or.inl h
      · rcases ih h with h' | ⟨d', hd', hc⟩
        · exact Or.inl h'
        · exact Or.inr ⟨d', by simp [hd'], hc⟩

theorem joinSep_ne_nil (d : List Char) (rest : List (List Char)) (hd : d ≠ []) :
    joinSep [',', ' '] (d :: rest) ≠ [] := by
  cases rest with
  | nil => simpa [joinSep] using hd
  | cons e rr =>
    intro h
    simp only [joinSep, List.append_assoc] at h
    rcases List.append_eq_nil.mp h with ⟨-, h2⟩
    simp at h2

theorem joinSep_iso_shape (ds : List (List Char)) (hne : ds ≠ [])
    (hiso : ∀ d ∈ ds, isIsoDate d = true) :
    ∃ x m y, joinSep [',', ' '] ds = x :: (m ++ [y])
      ∧ x.isWhitespace = false ∧ y.isWhitespace = false := by
  induction ds with
  | nil => exact absurd rfl hne
  | cons d rest ih =>
    obtain ⟨a, b, c0, d4, m1, m2, e, f, hs, ha, hb, hc0, hd4, hm1, hm2, he, hf⟩ :=
      iso_parts (hiso d (by simp))
    cases rest with
    | nil =>
      subst hs
      exact ⟨a, [b, c0, d4, '-', m1, m2, '-', e], f, rfl,
        (isDigitCh_spec a ha).2.2.2.2, (isDigitCh_spec f hf).2.2.2.2⟩
    | cons e2 rr =>
      obtain ⟨x, mm, y, hshape, hx, hy⟩ :=
        ih (by simp) (fun z hz => hiso z (List.mem_cons_of_mem d hz))
      subst hs
      refine ⟨a, [b, c0, d4, '-', m1, m2, '-', e, f] ++ [',', ' '] ++ (x :: mm), y, ?_,
        (isDigitCh_spec a ha).2.2.2.2, hy⟩
      simp only [joinSep, hshape, List.append_assoc, List.cons_append]

theorem jsTrim_joinSep_iso (ds : List (List Char)) (hne : ds ≠ [])
    (hiso : ∀ d ∈ ds, isIsoDate d = true) :
    jsTrim (joinSep [',', ' '] ds) = joinSep [',', ' '] ds := by
  obtain ⟨x, m, y, hshape, hx, hy⟩ := joinSep_iso_shape ds hne hiso
  rw [hshape]
  exact jsTrim_eq_self x y m hx hy

theorem joinSep_iso_no_bracket (ds : List (List Char))
    (hiso : ∀ d ∈ ds, isIsoDate d = true) :
    '[' ∉ joinSep [',', ' '] ds ∧ ']' ∉ joinSep [',', ' '] ds := by
  constructor <;> intro hm
  · rcases joinSep_mem _ _ _ hm with hsep | ⟨d, hd, hc⟩
    · simp at hsep
    · exact (iso_mem_safe (hiso d hd) _ hc).1 rfl
  · rcases joinSep_mem _ _ _ hm with hsep | ⟨d, hd, hc⟩
    · simp at hsep
    · exact (iso_mem_safe (hiso d hd) _ hc).2.1 rfl

theorem splitOnChar_joinSep (d : List Char) (rest : List (List Char))
    (hd : ',' ∉ d) (hrest : ∀ x ∈ rest, ',' ∉ x) :
    splitOnChar ',' (joinSep [',', ' '] (d :: rest))
      = d :: rest.map (fun e => ' ' :: e) := by
  induction rest generalizing d with
  | nil => simp [joinSep, splitOnChar_not_mem ',' d hd]
  | cons e rr ih =>
    have step : joinSep [',', ' '] (d :: e :: rr)
        = d ++ ',' :: ' ' :: joinSep [',', ' '] (e :: rr) := by
      simp [joinSep]
    have hJ := ih e (hrest e (by simp))
    have hJ2 := hJ (fun x hx => hrest x (List.mem_cons_of_mem e hx))
    rw [step, splitOnChar_append ',' d _ hd]
    have hsp : splitOnChar ',' (' ' :: joinSep [',', ' '] (e :: rr))
        = (' ' :: e) :: rr.map (fun x => ' ' :: x) := by
      simp [splitOnChar, hJ2]
    rw [hsp]
    simp

/-- C5.  For every hidden-field value `[d1, d2, ..., dn]` whose entries
are ISO dates `YYYY-MM-DD`, `getPendingDatesFromPage` returns exactly
those dates converted to `DD/MM/YYYY`, in order; an empty value, a
whitespace-only value, and `[]` all yield the empty sequence. -/
theorem claim_C5_structured_field_discovery (ds : List (List Char))
    (hne : ds ≠ []) (hiso : ∀ d ∈ ds, isIsoDate d = true) :
    getPendingDatesFromPage (mkHiddenField ds) = ds.map specDmy
    ∧ getPendingDatesFromPage [] = []
    ∧ getPendingDatesFromPage ['[', ']'] = []
    ∧ (∀ w, (∀ c ∈ w, c.isWhitespace = true) → getPendingDatesFromPage w = []) := by
  refine ⟨?_, rfl, by decide, ?_⟩
  swap
  · intro w hw
    unfold getPendingDatesFromPage
    rw [if_pos (Or.inr (Or.inr (jsTrim_all_ws w hw)))]
  -- main conjunct
  have hmk : mkHiddenField ds = '[' :: (joinSep [',', ' '] ds ++ [']']) := rfl
  have htr : jsTrim (mkHiddenField ds) = mkHiddenField ds := by
    rw [hmk]
    exact jsTrim_eq_self '[' ']' _ (by decide) (by decide)
  obtain ⟨d0, rest, rfl⟩ : ∃ d0 rest, ds = d0 :: rest := by
    cases ds with
    | nil => exact absurd rfl hne
    | cons d0 rest => exact ⟨d0, rest, rfl⟩
  have hJne : joinSep [',', ' '] (d0 :: rest) ≠ [] :=
    joinSep_ne_nil d0 rest (iso_trim (hiso d0 (by simp))).2
  have hnb := joinSep_iso_no_bracket (d0 :: rest) hiso
  have g1 : mkHiddenField (d0 :: rest) ≠ [] := by simp [mkHiddenField]
  have g2 : jsTrim (mkHiddenField (d0 :: rest)) ≠ ['[', ']'] := by
    rw [htr, hmk]
    intro h
    have hlen := congrArg List.length h
    simp only [List.length_cons, List.length_append] at hlen
    exact hJne (List.length_eq_zero.mp (by omega))
  have g3 : jsTrim (mkHiddenField (d0 :: rest)) ≠ [] := by
    rw [htr]
    exact g1
  have hsplit1 : (splitOnChar '[' (mkHiddenField (d0 :: rest))).flatten
      = joinSep [',', ' '] (d0 :: rest) ++ [']'] := by
    rw [hmk]
    have hstep : splitOnChar '[' ('[' :: (joinSep [',', ' '] (d0 :: rest) ++ [']']))
        = [] :: splitOnChar '[' (joinSep [',', ' '] (d0 :: rest) ++ [']']) := by
      simp [splitOnChar]
    have hmem : '[' ∉ joinSep [',', ' '] (d0 :: rest) ++ [']'] := by
      intro hm
      rcases List.mem_append.mp hm with hm | hm
      · exact hnb.1 hm
      · simp at hm
    rw [hstep, splitOnChar_not_mem '[' _ hmem]
    simp
  have hsplit2 : (splitOnChar ']' (joinSep [',', ' '] (d0 :: rest) ++ [']'])).flatten
      = joinSep [',', ' '] (d0 :: rest) := by
    rw [show joinSep [',', ' '] (d0 :: rest) ++ [']']
        = joinSep [',', ' '] (d0 :: rest) ++ ']' :: [] from rfl,
      splitOnChar_append ']' _ [] hnb.2]
    simp [splitOnChar]
  have hcd0 : ',' ∉ d0 :=
    fun hm => (iso_mem_safe (hiso d0 (by simp)) ',' hm).2.2 rfl
  have hcrest : ∀ x ∈ rest, ',' ∉ x :=
    fun x hx hm =>
      (iso_mem_safe (hiso x (List.mem_cons_of_mem d0 hx)) ',' hm).2.2 rfl
  have hsplitJ : splitOnChar ',' (joinSep [',', ' '] (d0 :: rest))
      = d0 :: rest.map (fun e => ' ' :: e) := splitOnChar_joinSep d0 rest hcd0 hcrest
  unfold getPendingDatesFromPage
  rw [if_neg (fun h => by rcases h with h | h | h; exacts [g1 h, g2 h, g3 h])]
  dsimp only
  rw [hsplit1, hsplit2, jsTrim_joinSep_iso (d0 :: rest) hne hiso, if_neg hJne,
    hsplitJ, List.map_cons, (iso_trim (hiso d0 (by simp))).1, List.map_map]
  have hmapTrim : rest.map (jsTrim ∘ fun e => ' ' :: e) = rest := by
    rw [List.map_congr_left (g := fun e => e) (fun e he => by
      show jsTrim (' ' :: e) = e
      rw [jsTrim_cons_space]
      exact (iso_trim (hiso e (List.mem_cons_of_mem d0 he))).1)]
    exact List.map_id rest
  rw [hmapTrim]
  have hfilter : (d0 :: rest).filter (fun d => !d.isEmpty) = d0 :: rest := by
    rw [List.filter_eq_self]
    intro x hx
    have hxne := (iso_trim (hiso x hx)).2
    simp [List.isEmpty_iff, hxne]
  rw [hfilter]
  exact List.map_congr_left (fun x hx => iso_isoToQuery (hiso x hx))

/-- Concrete hidden-field dates for the C5 witness. -/
def isoDatesW : List (List Char) :=
  [['2', '0', '2', '5', '-', '0', '1', '-', '3', '1'],
   ['2', '0', '2', '5', '-', '0', '2', '-', '2', '8']]

theorem claim_C5_structured_field_discovery_witness :
    isoDatesW ≠ []
    ∧ (∀ d ∈ isoDatesW, isIsoDate d = true)
    ∧ getPendingDatesFromPage (mkHiddenField isoDatesW) = isoDatesW.map specDmy :=
  ⟨by decide, by decide,
    (claim_C5_structured_field_discovery isoDatesW (by decide) (by decide)).1⟩

theorem claim_C7_submit_button_missing_witness :
    (⟨3, false⟩ : ObraPageEnv).validateBtnFound = false
    ∧ 2 ≤ 3
    ∧ noSubmitPage.emptyMarker = false
    ∧ noSubmitPage.query noSubmitPage.s0 = 0
    ∧ (0 < noSubmitPage.bodyCheckboxCount ∨ noSubmitPage.headerCheckboxPresent = true)
    ∧ noSubmitPage.submitBtnFound = false
    ∧ validateObraNalanda ⟨3, false⟩ = Except.error submitMissingMsg
    ∧ (validateJornadasPage noSubmitPage).1 = 0 :=
  ⟨rfl, by decide, rfl, rfl, Or.inl (by decide), rfl,
    (claim_C7_submit_button_missing ⟨3, false⟩ rfl "15/01/2025" 3 (by decide)
      noSubmitPage rfl rfl (Or.inl (by decide)) rfl).1,
    (claim_C7_submit_button_missing ⟨3, false⟩ rfl "15/01/2025" 3 (by decide)
      noSubmitPage rfl rfl (Or.inl (by decide)) rfl).2.2.2.1⟩

end Nalanda
